import Mathlib

/-!
Verification of the Gaming-Time-Tracker core against its specification.

This file gives a shallow embedding, in Lean, of the core data model and
algorithms of the repository (src/src-tauri/src/models.rs, database.rs and
game_monitor.rs) and proves, or refutes, the specified properties of the
session tracker, the interval merger, the budget engine, the rollover
pruning, the settings fallback and the process classifier.

Modelling conventions:
- Timestamps (chrono DateTime) are modelled as integer seconds (Int).
- Rust i32 / i64 values are modelled as Int; Rust integer division `/`
  on signed integers truncates toward zero, which is Int.tdiv in Lean.
- Non-deterministic environment inputs (Utc::now(), uuid generation, the
  OS process snapshot) are passed as explicit parameters.
- The SQLite row store is modelled as in-memory lists of records; the SQL
  comparisons on rfc3339 strings are modelled as the corresponding integer
  timestamp comparisons.
-/

/-! ## Data model (src/src-tauri/src/models.rs) -/

/-- GameSession from models.rs. -/
structure GameSession where
  id : Option String
  game_name : String
  process_name : String
  start_time : Int
  end_time : Option Int
  duration_seconds : Option Int
  is_social_session : Bool
  is_concurrent : Bool
  concurrent_session_ids : List String
deriving DecidableEq, Repr

/-- GameSession::new. The generated uuid and Utc::now() are parameters. -/
def GameSession.new (game_name process_name : String) (id : String) (now : Int) : GameSession :=
  { id := some id
    game_name := game_name
    process_name := process_name
    start_time := now
    end_time := none
    duration_seconds := none
    is_social_session := false
    is_concurrent := false
    concurrent_session_ids := [] }

/-- GameSession::end_session. Sets the end time to now and the duration to
end minus start (the source re-reads the freshly written end_time). -/
def GameSession.end_session (s : GameSession) (now : Int) : GameSession :=
  { s with end_time := some now, duration_seconds := some (now - s.start_time) }

/-- GameSession::current_duration. -/
def GameSession.current_duration (s : GameSession) (now : Int) : Int :=
  match s.end_time with
  | some e => e - s.start_time
  | none => now - s.start_time

/-- BudgetStatus from models.rs. -/
structure BudgetStatus where
  daily_allowance_minutes : Int
  used_today_minutes : Int
  remaining_today_minutes : Int
  rollover_minutes : Int
  earned_minutes : Int
  total_available_minutes : Int
deriving DecidableEq, Repr

/-- BudgetStatus::new. -/
def BudgetStatus.new (daily_allowance : Int) : BudgetStatus :=
  { daily_allowance_minutes := daily_allowance
    used_today_minutes := 0
    remaining_today_minutes := daily_allowance
    rollover_minutes := 0
    earned_minutes := 0
    total_available_minutes := daily_allowance }

/-- BudgetStatus::update_usage. -/
def BudgetStatus.update_usage (b : BudgetStatus) (used_minutes : Int) : BudgetStatus :=
  let total := b.daily_allowance_minutes + b.rollover_minutes + b.earned_minutes
  { b with used_today_minutes := used_minutes
           total_available_minutes := total
           remaining_today_minutes := max (total - used_minutes) 0 }

/-- LearningActivity from models.rs. -/
structure LearningActivity where
  id : Option String
  activity_type : String
  description : String
  duration_minutes : Int
  earned_gaming_minutes : Int
  timestamp : Int
deriving DecidableEq, Repr

/-- LearningActivity::new. Rust integer division on i32 truncates toward
zero, hence Int.tdiv. The uuid and Utc::now() are parameters. -/
def LearningActivity.new (activity_type description : String) (duration_minutes : Int)
    (id : String) (now : Int) : LearningActivity :=
  let earned_gaming_minutes :=
    match activity_type with
    | "coding" => Int.tdiv duration_minutes 4
    | "reading" => Int.tdiv duration_minutes 6
    | "course" => Int.tdiv duration_minutes 4
    | "exercise" => Int.tdiv duration_minutes 3
    | _ => Int.tdiv duration_minutes 5
  { id := some id
    activity_type := activity_type
    description := description
    duration_minutes := duration_minutes
    earned_gaming_minutes := earned_gaming_minutes
    timestamp := now }

/-- AppSettings from models.rs. -/
structure AppSettings where
  daily_allowance_minutes : Int
  rollover_days : Int
  notifications_enabled : Bool
  warning_threshold_minutes : Int
deriving DecidableEq, Repr

/-! ## Database operations (src/src-tauri/src/database.rs) -/

/-- Rust str::parse::<i32> modelled on the stored string: optional sign,
at least one digit, all digits, and the value must fit in i32. -/
def parse_i32 (s : String) : Option Int :=
  let p : Int × List Char :=
    match s.data with
    | '+' :: rest => (1, rest)
    | '-' :: rest => (-1, rest)
    | l => (1, l)
  if p.2.isEmpty || !p.2.all Char.isDigit then none
  else
    let n : Nat := p.2.foldl (fun acc c => acc * 10 + (c.toNat - 48)) 0
    let v : Int := p.1 * (n : Int)
    if -2147483648 ≤ v ∧ v ≤ 2147483647 then some v else none

/-- One step of the settings loop in Database::get_settings: fold a stored
(key, value) row into the settings record being built. -/
def applySetting (s : AppSettings) (kv : String × String) : AppSettings :=
  match kv.1 with
  | "daily_allowance_minutes" =>
      { s with daily_allowance_minutes := (parse_i32 kv.2).getD 120 }
  | "rollover_days" =>
      { s with rollover_days := (parse_i32 kv.2).getD 3 }
  | "notifications_enabled" =>
      { s with notifications_enabled := kv.2 == "true" }
  | "warning_threshold_minutes" =>
      { s with warning_threshold_minutes := (parse_i32 kv.2).getD 15 }
  | _ => s

/-- Database::get_settings: start from the hard-coded defaults
(120, 3, true, 15) and fold every stored settings row over them. -/
def get_settings (rows : List (String × String)) : AppSettings :=
  rows.foldl applySetting
    { daily_allowance_minutes := 120
      rollover_days := 3
      notifications_enabled := true
      warning_threshold_minutes := 15 }

/-- A row of the budget_rollover table. -/
structure RolloverEntry where
  date : String
  unused_minutes : Int
  expires_at : Int
deriving DecidableEq, Repr

/-- Database::get_rollover_minutes: first DELETE every row with
expires_at < now, then SUM unused_minutes over the rows with
expires_at >= now. Returns the table after the deletion and the sum. -/
def get_rollover_minutes (table : List RolloverEntry) (now : Int) :
    List RolloverEntry × Int :=
  let remaining := table.filter (fun r => !decide (r.expires_at < now))
  let total :=
    ((remaining.filter (fun r => decide (now ≤ r.expires_at))).map
      (fun r => r.unused_minutes)).sum
  (remaining, total)

/-- Database::add_debug_earned_minutes: builds a synthetic learning
activity whose earned_gaming_minutes is the given amount, possibly
negative; the duration is the absolute value times 4. -/
def add_debug_earned_minutes (minutes : Int) (id : String) (now : Int) : LearningActivity :=
  let a := |minutes|
  { id := some id
    activity_type := "debug"
    description :=
      if minutes > 0 then s!"Debug: Added {minutes} minutes to budget"
      else s!"Debug: Removed {a} minutes from budget"
    duration_minutes := |minutes| * 4
    earned_gaming_minutes := minutes
    timestamp := now }

/-! ## Game monitor (src/src-tauri/src/game_monitor.rs)

The sysinfo System handle is replaced by an explicit process snapshot:
a list of (process_name, executable_path) pairs. Fresh uuids for new
sessions are supplied by a function from a counter to a string. -/

/-- GameMonitor state (the fields of the Rust struct except the OS
handle). The known_games HashMap is modelled as an association list with
unique keys. -/
structure GameMonitor where
  active_sessions : List GameSession
  completed_sessions : List GameSession
  known_games : List (String × String)
  blacklisted_processes : List String
  is_paused : Bool
deriving DecidableEq, Repr

/-- Substring test used for Rust str::contains on path markers. For a
nonempty pattern, splitOn returns more than one piece exactly when the
pattern occurs in the string. -/
def strContainsSubstr (s pat : String) : Bool :=
  (s.splitOn pat).length != 1

/-- GameMonitor::is_likely_steam_game, on the executable path. -/
def is_likely_steam_game (exe_path : String) : Bool :=
  strContainsSubstr exe_path "steamapps" ||
  strContainsSubstr exe_path "Steam\\steamapps" ||
  strContainsSubstr exe_path "Steam/steamapps"

/-- Repeatedly strip a trailing ".exe", as Rust trim_end_matches does.
The fuel argument (instantiated with the string length) only serves
termination; each strip removes four characters. -/
def trimEndMatchesExe : Nat → String → String
  | 0, s => s
  | fuel + 1, s => if s.endsWith ".exe" then trimEndMatchesExe fuel (s.dropRight 4) else s

/-- Capitalize the first character of a word (Rust to_uppercase on the
first char; ASCII behaviour coincides with Char.toUpper). -/
def capitalizeWord (w : String) : String :=
  match w.data with
  | [] => ""
  | c :: rest => String.mk (c.toUpper :: rest)

/-- GameMonitor::get_steam_game_name: strip trailing ".exe", turn
underscores and dashes into spaces, capitalize each whitespace-separated
word and join with single spaces. -/
def get_steam_game_name (process_name : String) : String :=
  let name := ((trimEndMatchesExe process_name.length process_name).replace "_" " ").replace
    "-" " "
  String.intercalate " "
    (((name.split Char.isWhitespace).filter (fun w => w != "")).map capitalizeWord)

/-- HashMap::get on the known-games table. -/
def lookupKnownGame (known_games : List (String × String)) (process_name : String) :
    Option String :=
  (known_games.find? (fun e => e.1 == process_name)).map (fun e => e.2)

/-- GameMonitor::find_all_gaming_processes over a snapshot of
(process_name, exe_path) pairs: skip blacklisted names, then try the
known-games table, then the Steam path heuristic. -/
def find_all_gaming_processes (m : GameMonitor) :
    List (String × String) → List (String × String)
  | [] => []
  | (process_name, exe_path) :: rest =>
    if m.blacklisted_processes.contains process_name then
      find_all_gaming_processes m rest
    else
      match lookupKnownGame m.known_games process_name with
      | some display_name => (process_name, display_name) :: find_all_gaming_processes m rest
      | none =>
        if is_likely_steam_game exe_path then
          (process_name, get_steam_game_name process_name) :: find_all_gaming_processes m rest
        else
          find_all_gaming_processes m rest

/-- GameMonitor::get_active_session_ids. -/
def get_active_session_ids (active : List GameSession) : List String :=
  active.filterMap (fun s => s.id)

/-- GameMonitor::get_concurrent_session_ids: ids of the sessions in the
given active list other than the current session. -/
def get_concurrent_session_ids (active : List GameSession) (current_session : GameSession) :
    List String :=
  active.filterMap (fun s => if s.id ≠ current_session.id then s.id else none)

/-- Indices of active sessions whose process is no longer running
(the sessions_to_end vector in GameMonitor::update), in ascending order. -/
def sessionsToEnd (active : List GameSession) (running : List String) : List Nat :=
  ((active.enum).filter (fun p => !running.contains p.2.process_name)).map (fun p => p.1)

/-- The ending loop of GameMonitor::update: indices are consumed in the
order of iteration (the source iterates sessions_to_end in reverse, i.e.
descending, so lower indices stay valid); each session is removed from
the active list, ended, and flagged concurrent when other sessions remain
active after its removal or more than one session ends in this pass; its
concurrent ids are read from the active list as it stands after the
removal. Returns the remaining active list and the completed additions. -/
def endLoop (active completed : List GameSession) (toEnd : List Nat) (numEnding : Nat)
    (now : Int) : List GameSession × List GameSession :=
  match toEnd with
  | [] => (active, completed)
  | i :: rest =>
    match active.get? i with
    | none => endLoop active completed rest numEnding now
    | some sess =>
      let activeAfter := active.eraseIdx i
      let ended := sess.end_session now
      let ended :=
        if 0 < activeAfter.length ∨ 1 < numEnding then
          { ended with is_concurrent := true
                       concurrent_session_ids := get_concurrent_session_ids activeAfter ended }
        else ended
      endLoop activeAfter (completed ++ [ended]) rest numEnding now

/-- The starting loop of GameMonitor::update: for each detected game with
no session already tracking its process, create a new session; if other
sessions are active, mark the new one concurrent with their ids and push
the new id onto every existing active session. -/
def startLoop (active : List GameSession) (detected : List (String × String))
    (freshIds : Nat → String) (k : Nat) (now : Int) : List GameSession :=
  match detected with
  | [] => active
  | (process_name, display_name) :: rest =>
    if active.any (fun s => s.process_name == process_name) then
      startLoop active rest freshIds k now
    else
      let newSession := GameSession.new display_name process_name (freshIds k) now
      if active.isEmpty then
        startLoop (active ++ [newSession]) rest freshIds (k + 1) now
      else
        let newSession :=
          { newSession with is_concurrent := true
                            concurrent_session_ids := get_active_session_ids active }
        let active :=
          active.map (fun s =>
            { s with is_concurrent := true
                     concurrent_session_ids := s.concurrent_session_ids ++ [freshIds k] })
        startLoop (active ++ [newSession]) rest freshIds (k + 1) now

/-- GameMonitor::update: when not paused, classify the snapshot, end the
sessions whose process disappeared (in reverse index order), then start
sessions for newly detected games. -/
def GameMonitor.update (m : GameMonitor) (procs : List (String × String)) (now : Int)
    (freshIds : Nat → String) : GameMonitor :=
  if m.is_paused then m
  else
    let detected := find_all_gaming_processes m procs
    let running := detected.map (fun d => d.1)
    let toEnd := sessionsToEnd m.active_sessions running
    let p := endLoop m.active_sessions [] toEnd.reverse toEnd.length now
    let active2 := startLoop p.1 detected freshIds 0 now
    { m with active_sessions := active2
             completed_sessions := m.completed_sessions ++ p.2 }

/-- GameMonitor::get_total_active_time: 0 when no session is active,
otherwise the elapsed seconds since the earliest active start time
(min().unwrap_or(now) in the source). -/
def get_total_active_time (m : GameMonitor) (now : Int) : Int :=
  if m.active_sessions.isEmpty then 0
  else now - (((m.active_sessions.map (fun s => s.start_time)).min?).getD now)

/-- The known-games table installed by GameMonitor::add_known_games. -/
def defaultKnownGames : List (String × String) :=
  [("steam.exe", "Steam"),
   ("League of Legends.exe", "League of Legends"),
   ("RiotClientServices.exe", "Riot Games"),
   ("Valorant.exe", "Valorant"),
   ("csgo.exe", "Counter-Strike: Global Offensive"),
   ("dota2.exe", "Dota 2"),
   ("RocketLeague.exe", "Rocket League"),
   ("destiny2.exe", "Destiny 2"),
   ("overwatch.exe", "Overwatch"),
   ("wow.exe", "World of Warcraft"),
   ("minecraft.exe", "Minecraft"),
   ("epicgameslauncher.exe", "Epic Games Launcher"),
   ("battle.net.exe", "Battle.net"),
   ("origin.exe", "EA Origin"),
   ("uplay.exe", "Ubisoft Connect")]

/-- The exclusion list installed by GameMonitor::add_blacklisted_processes. -/
def defaultBlacklist : List String :=
  ["wallpaper32.exe", "wallpaper64.exe", "steamwebhelper.exe",
   "steamerrorreporter.exe", "crashhandler.exe", "steam.exe"]

/-- GameMonitor::new: empty session lists, the default tables, not paused. -/
def GameMonitor.new : GameMonitor :=
  { active_sessions := []
    completed_sessions := []
    known_games := defaultKnownGames
    blacklisted_processes := defaultBlacklist
    is_paused := false }

/-! ## Interval merger (Database::calculate_unique_time_periods)

A period is (start, end, is_concurrent); the boolean is carried through
the sort exactly as in the source but never read by the sweep. -/

/-- Stable insertion of a period into a list sorted by start time. -/
def insertByStart (p : Int × Int × Bool) :
    List (Int × Int × Bool) → List (Int × Int × Bool)
  | [] => [p]
  | q :: rest => if p.1 ≤ q.1 then p :: q :: rest else q :: insertByStart p rest

/-- The sort_by_key(start) step of calculate_unique_time_periods, as a
stable insertion sort (only sortedness by start and being a permutation
matter to the sweep). -/
def sortByStart : List (Int × Int × Bool) → List (Int × Int × Bool)
  | [] => []
  | p :: rest => insertByStart p (sortByStart rest)

/-- The sweep loop of Database::calculate_unique_time_periods, with the
current_end accumulator made explicit: the first period adds its full
length; a later period adds its full length when it starts at or after
current_end, its tail beyond current_end when it only partly overlaps,
and nothing when it is fully contained. -/
def mergeLoop : List (Int × Int × Bool) → Option Int → Int
  | [], _ => 0
  | p :: rest, none => (p.2.1 - p.1) + mergeLoop rest (some p.2.1)
  | p :: rest, some prev_end =>
    if prev_end ≤ p.1 then (p.2.1 - p.1) + mergeLoop rest (some p.2.1)
    else if prev_end < p.2.1 then (p.2.1 - prev_end) + mergeLoop rest (some p.2.1)
    else mergeLoop rest (some prev_end)

/-- Database::calculate_unique_time_periods: 0 on the empty input,
otherwise the sweep over the list sorted by start time. -/
def calculate_unique_time_periods (periods : List (Int × Int × Bool)) : Int :=
  if periods.isEmpty then 0
  else mergeLoop (sortByStart periods) none

/-- The set of integer seconds covered by one closed-open period. -/
def periodSet (p : Int × Int × Bool) : Finset Int :=
  Finset.Ico p.1 p.2.1

/-- The set of integer seconds covered by a list of periods. -/
def coveredPoints : List (Int × Int × Bool) → Finset Int
  | [] => ∅
  | p :: rest => periodSet p ∪ coveredPoints rest

/-- Sum of the individual period lengths (end minus start). -/
def durationSum (l : List (Int × Int × Bool)) : Int :=
  (l.map (fun p => p.2.1 - p.1)).sum

/-- Every period has start at or before end. -/
def WellFormedPeriods (l : List (Int × Int × Bool)) : Prop :=
  ∀ p ∈ l, p.1 ≤ p.2.1

/-- The periods are pairwise disjoint as closed-open intervals. -/
def PairwiseDisjointPeriods (l : List (Int × Int × Bool)) : Prop :=
  l.Pairwise (fun p q => Disjoint (periodSet p) (periodSet q))

/-! ## Spec-side definitions and fixtures -/

/-- Modelled from the spec's words (section 4.4, refinement target for the
earned-minutes claim): the per-type conversion table with floor division. -/
def earnedFloorSpec (activity_type : String) (duration_minutes : Int) : Int :=
  match activity_type with
  | "coding" => Int.fdiv duration_minutes 4
  | "reading" => Int.fdiv duration_minutes 6
  | "course" => Int.fdiv duration_minutes 4
  | "exercise" => Int.fdiv duration_minutes 3
  | _ => Int.fdiv duration_minutes 5

/-- The amended conversion table: truncating division toward zero, as Rust
signed integer division actually behaves. -/
def earnedTruncSpec (activity_type : String) (duration_minutes : Int) : Int :=
  match activity_type with
  | "coding" => Int.tdiv duration_minutes 4
  | "reading" => Int.tdiv duration_minutes 6
  | "course" => Int.tdiv duration_minutes 4
  | "exercise" => Int.tdiv duration_minutes 3
  | _ => Int.tdiv duration_minutes 5

/-- The session invariant of the data model: duration is present iff the
end timestamp is present, and duration = end - start when both exist. -/
def sessionInvariant (s : GameSession) : Prop :=
  match s.end_time, s.duration_seconds with
  | none, none => True
  | some e, some d => d = e - s.start_time
  | _, _ => False

/-- Fixture: an active session with id "a". -/
def sessA : GameSession :=
  { id := some "a", game_name := "A", process_name := "a.exe", start_time := 0,
    end_time := none, duration_seconds := none, is_social_session := false,
    is_concurrent := false, concurrent_session_ids := [] }

/-- Fixture: an active session with id "b". -/
def sessB : GameSession :=
  { sessA with id := some "b", game_name := "B", process_name := "b.exe" }

/-- Fixture: a tracker with the two sessions a and b active. -/
def m0 : GameMonitor :=
  { active_sessions := [sessA, sessB], completed_sessions := [],
    known_games := [], blacklisted_processes := [], is_paused := false }

/-- Fixture: a budget status whose earned minutes are negative (as the
debug earned-minutes command can produce). -/
def debugNegBudget : BudgetStatus :=
  { daily_allowance_minutes := 120, used_today_minutes := 0,
    remaining_today_minutes := 120, rollover_minutes := 0,
    earned_minutes := -200, total_available_minutes := 120 }

/-- Fixture: two overlapping well-formed periods. -/
def demoPeriods : List (Int × Int × Bool) :=
  [(0, 10, false), (5, 15, true)]

/-- Fixture: a rollover table with one live entry and one expired entry
relative to the query instant 50. -/
def rolloverTable : List RolloverEntry :=
  [{ date := "d1", unused_minutes := 30, expires_at := 100 },
   { date := "d2", unused_minutes := 20, expires_at := 5 }]

/-! ## Helper lemmas -/

/-- A point is in a period set iff it lies in the closed-open range. -/
lemma mem_periodSet {x : Int} {p : Int × Int × Bool} :
    x ∈ periodSet p ↔ p.1 ≤ x ∧ x < p.2.1 := by
  simp [periodSet, Finset.mem_Ico]

/-- A point is covered iff some listed period covers it. -/
lemma mem_coveredPoints {x : Int} {l : List (Int × Int × Bool)} :
    x ∈ coveredPoints l ↔ ∃ p ∈ l, x ∈ periodSet p := by
  induction l with
  | nil => simp [coveredPoints]
  | cons p rest ih => simp [coveredPoints, ih]

/-- Each listed period's set is contained in the covered set. -/
lemma periodSet_subset_coveredPoints {q : Int × Int × Bool} {l : List (Int × Int × Bool)}
    (hq : q ∈ l) : periodSet q ⊆ coveredPoints l :=
  fun _ hx => mem_coveredPoints.mpr ⟨q, hq, hx⟩

/-- The covered set only depends on the periods up to permutation. -/
lemma coveredPoints_perm {l l2 : List (Int × Int × Bool)} (h : l.Perm l2) :
    coveredPoints l = coveredPoints l2 :=
  Finset.ext fun x => by
    simp only [mem_coveredPoints]
    exact ⟨fun ⟨p, hp, hx⟩ => ⟨p, h.mem_iff.mp hp, hx⟩,
      fun ⟨p, hp, hx⟩ => ⟨p, h.mem_iff.mpr hp, hx⟩⟩

/-- Insertion produces a permutation of consing. -/
lemma insertByStart_perm (p : Int × Int × Bool) (l : List (Int × Int × Bool)) :
    (insertByStart p l).Perm (p :: l) := by
  induction l with
  | nil => exact List.Perm.refl _
  | cons q rest ih =>
    unfold insertByStart
    by_cases hle : p.1 ≤ q.1
    · rw [if_pos hle]
    · rw [if_neg hle]
      exact (ih.cons q).trans (List.Perm.swap p q rest)

/-- Sorting by start is a permutation of the input. -/
lemma sortByStart_perm (l : List (Int × Int × Bool)) : (sortByStart l).Perm l := by
  induction l with
  | nil => exact List.Perm.refl _
  | cons p rest ih => exact (insertByStart_perm p (sortByStart rest)).trans (ih.cons p)

/-- Insertion preserves sortedness by start. -/
lemma insertByStart_pairwise {p : Int × Int × Bool} {l : List (Int × Int × Bool)}
    (h : l.Pairwise (fun a b => a.1 ≤ b.1)) :
    (insertByStart p l).Pairwise (fun a b => a.1 ≤ b.1) := by
  induction l with
  | nil => simp [insertByStart]
  | cons q rest ih =>
    obtain ⟨hq, hrest⟩ := List.pairwise_cons.mp h
    unfold insertByStart
    by_cases hle : p.1 ≤ q.1
    · rw [if_pos hle]
      refine List.pairwise_cons.mpr ⟨?_, h⟩
      intro b hb
      rcases List.mem_cons.mp hb with rfl | hb
      · exact hle
      · exact le_trans hle (hq b hb)
    · rw [if_neg hle]
      refine List.pairwise_cons.mpr ⟨?_, ih hrest⟩
      intro b hb
      rcases List.mem_cons.mp ((insertByStart_perm p rest).mem_iff.mp hb) with rfl | hb
      · exact le_of_not_le hle
      · exact hq b hb

/-- The sort by start time is sorted by start time. -/
lemma sortByStart_pairwise (l : List (Int × Int × Bool)) :
    (sortByStart l).Pairwise (fun a b => a.1 ≤ b.1) := by
  induction l with
  | nil => simp [sortByStart]
  | cons p rest ih => exact insertByStart_pairwise ih

/-- The duration sum only depends on the periods up to permutation. -/
lemma durationSum_perm {l l2 : List (Int × Int × Bool)} (h : l.Perm l2) :
    durationSum l = durationSum l2 := by
  unfold durationSum
  exact (h.map (fun p => p.2.1 - p.1)).sum_eq

/-- Central sweep invariant: on a list sorted by start with well-formed
periods, the loop run with current_end = cur computes exactly the number
of covered integer seconds at or beyond cur. -/
lemma mergeLoop_filter_card (l : List (Int × Int × Bool)) :
    ∀ cur : Int, l.Pairwise (fun a b => a.1 ≤ b.1) → WellFormedPeriods l →
      mergeLoop l (some cur)
        = ((((coveredPoints l).filter (fun x => cur ≤ x)).card : Nat) : Int) := by
  induction l with
  | nil => intro cur _ _; simp [mergeLoop, coveredPoints]
  | cons p rest ih =>
    intro cur hs hw
    obtain ⟨hhead, hrest⟩ := List.pairwise_cons.mp hs
    have hwp : p.1 ≤ p.2.1 := hw p (List.mem_cons_self p rest)
    have hwr : WellFormedPeriods rest := fun q hq => hw q (List.mem_cons_of_mem p hq)
    have hcov : ∀ x ∈ coveredPoints rest, p.1 ≤ x := by
      intro x hx
      obtain ⟨q, hq, hxq⟩ := mem_coveredPoints.mp hx
      have h1 := hhead q hq
      have h2 := (mem_periodSet.mp hxq).1
      omega
    have hcovered : coveredPoints (p :: rest) = periodSet p ∪ coveredPoints rest := rfl
    by_cases h1 : cur ≤ p.1
    · have hstep : mergeLoop (p :: rest) (some cur)
          = (p.2.1 - p.1) + mergeLoop rest (some p.2.1) := by
        simp [mergeLoop, h1]
      have hfilter : (periodSet p ∪ coveredPoints rest).filter (fun x => cur ≤ x)
          = periodSet p ∪ coveredPoints rest := by
        apply Finset.filter_true_of_mem
        intro x hx
        rcases Finset.mem_union.mp hx with hxp | hxr
        · have := (mem_periodSet.mp hxp).1; omega
        · have := hcov x hxr; omega
      have hsplit : periodSet p ∪ coveredPoints rest
          = periodSet p ∪ (coveredPoints rest).filter (fun x => p.2.1 ≤ x) := by
        apply Finset.ext
        intro x
        simp only [Finset.mem_union, Finset.mem_filter, mem_periodSet]
        constructor
        · rintro (hx | hx)
          · exact Or.inl hx
          · by_cases hxe : p.2.1 ≤ x
            · exact Or.inr ⟨hx, hxe⟩
            · exact Or.inl ⟨hcov x hx, by omega⟩
        · rintro (hx | ⟨hx, _⟩)
          · exact Or.inl hx
          · exact Or.inr hx
      have hdisj : Disjoint (periodSet p)
          ((coveredPoints rest).filter (fun x => p.2.1 ≤ x)) := by
        rw [Finset.disjoint_left]
        intro x hxp hxf
        have hx1 := (mem_periodSet.mp hxp).2
        have hx2 := (Finset.mem_filter.mp hxf).2
        omega
      have hcardA : (((periodSet p).card : Nat) : Int) = p.2.1 - p.1 := by
        rw [periodSet, Int.card_Ico, Int.toNat_of_nonneg (by omega)]
      have hih := ih p.2.1 hrest hwr
      rw [hstep, hih, hcovered, hfilter, hsplit, Finset.card_union_of_disjoint hdisj]
      push_cast
      omega
    · by_cases h2 : cur < p.2.1
      · have hstep : mergeLoop (p :: rest) (some cur)
            = (p.2.1 - cur) + mergeLoop rest (some p.2.1) := by
          simp [mergeLoop, h1, h2]
        have hA : (periodSet p).filter (fun x => cur ≤ x) = Finset.Ico cur p.2.1 := by
          apply Finset.ext
          intro x
          simp only [Finset.mem_filter, mem_periodSet, Finset.mem_Ico]
          omega
        have hsplit : Finset.Ico cur p.2.1 ∪ (coveredPoints rest).filter (fun x => cur ≤ x)
            = Finset.Ico cur p.2.1 ∪ (coveredPoints rest).filter (fun x => p.2.1 ≤ x) := by
          apply Finset.ext
          intro x
          simp only [Finset.mem_union, Finset.mem_filter, Finset.mem_Ico]
          constructor
          · rintro (hx | ⟨hx, hcur⟩)
            · exact Or.inl hx
            · by_cases hxe : p.2.1 ≤ x
              · exact Or.inr ⟨hx, hxe⟩
              · exact Or.inl ⟨hcur, by omega⟩
          · rintro (hx | ⟨hx, hxe⟩)
            · exact Or.inl hx
            · exact Or.inr ⟨hx, by omega⟩
        have hdisj : Disjoint (Finset.Ico cur p.2.1)
            ((coveredPoints rest).filter (fun x => p.2.1 ≤ x)) := by
          rw [Finset.disjoint_left]
          intro x hxp hxf
          have hx1 := (Finset.mem_Ico.mp hxp).2
          have hx2 := (Finset.mem_filter.mp hxf).2
          omega
        have hcardA : (((Finset.Ico cur p.2.1).card : Nat) : Int) = p.2.1 - cur := by
          rw [Int.card_Ico, Int.toNat_of_nonneg (by omega)]
        have hih := ih p.2.1 hrest hwr
        rw [hstep, hih, hcovered, Finset.filter_union, hA, hsplit,
          Finset.card_union_of_disjoint hdisj]
        push_cast
        omega
      · have hstep : mergeLoop (p :: rest) (some cur) = mergeLoop rest (some cur) := by
          simp [mergeLoop, h1, h2]
        have hA0 : (periodSet p).filter (fun x => cur ≤ x) = ∅ := by
          rw [Finset.filter_eq_empty_iff]
          intro x hx
          have := (mem_periodSet.mp hx).2
          omega
        rw [hstep, ih cur hrest hwr, hcovered, Finset.filter_union, hA0,
          Finset.empty_union]

/-- On a sorted well-formed list the sweep computes the size of the union
of the periods. -/
lemma mergeLoop_none_card (l : List (Int × Int × Bool))
    (hs : l.Pairwise (fun a b => a.1 ≤ b.1)) (hw : WellFormedPeriods l) :
    mergeLoop l none = (((coveredPoints l).card : Nat) : Int) := by
  cases l with
  | nil => simp [mergeLoop, coveredPoints]
  | cons p rest =>
    have hfirst : mergeLoop (p :: rest) none = mergeLoop (p :: rest) (some p.1) := by
      simp [mergeLoop]
    rw [hfirst, mergeLoop_filter_card (p :: rest) p.1 hs hw]
    congr 2
    apply Finset.filter_true_of_mem
    intro x hx
    obtain ⟨q, hq, hxq⟩ := mem_coveredPoints.mp hx
    have hq1 : p.1 ≤ q.1 := by
      rcases List.mem_cons.mp hq with rfl | hq2
      · exact le_refl _
      · exact (List.pairwise_cons.mp hs).1 q hq2
    have := (mem_periodSet.mp hxq).1
    omega

/-- The size of the union is at most the sum of the period lengths. -/
lemma card_coveredPoints_le (l : List (Int × Int × Bool)) (hw : WellFormedPeriods l) :
    (((coveredPoints l).card : Nat) : Int) ≤ durationSum l := by
  induction l with
  | nil => simp [coveredPoints, durationSum]
  | cons p rest ih =>
    have hwp : p.1 ≤ p.2.1 := hw p (List.mem_cons_self p rest)
    have hwr : WellFormedPeriods rest := fun q hq => hw q (List.mem_cons_of_mem p hq)
    have hle := Finset.card_union_le (periodSet p) (coveredPoints rest)
    have hcardA : (((periodSet p).card : Nat) : Int) = p.2.1 - p.1 := by
      rw [periodSet, Int.card_Ico, Int.toNat_of_nonneg (by omega)]
    have hrest := ih hwr
    have hcovered : coveredPoints (p :: rest) = periodSet p ∪ coveredPoints rest := rfl
    have hd : durationSum (p :: rest) = (p.2.1 - p.1) + durationSum rest := by
      simp [durationSum]
    rw [hcovered, hd]
    omega

/-- Disjointness from a union of period sets is disjointness from each. -/
lemma disjoint_coveredPoints_iff (A : Finset Int) (l : List (Int × Int × Bool)) :
    Disjoint A (coveredPoints l) ↔ ∀ q ∈ l, Disjoint A (periodSet q) := by
  induction l with
  | nil => simp [coveredPoints]
  | cons p rest ih => simp [coveredPoints, Finset.disjoint_union_right, ih]

/-- The union size equals the sum of lengths exactly when the periods are
pairwise disjoint. -/
lemma card_eq_sum_iff_disjoint (l : List (Int × Int × Bool)) (hw : WellFormedPeriods l) :
    ((((coveredPoints l).card : Nat) : Int) = durationSum l)
      ↔ PairwiseDisjointPeriods l := by
  induction l with
  | nil => simp [coveredPoints, durationSum, PairwiseDisjointPeriods]
  | cons p rest ih =>
    have hwp : p.1 ≤ p.2.1 := hw p (List.mem_cons_self p rest)
    have hwr : WellFormedPeriods rest := fun q hq => hw q (List.mem_cons_of_mem p hq)
    have hcardA : (((periodSet p).card : Nat) : Int) = p.2.1 - p.1 := by
      rw [periodSet, Int.card_Ico, Int.toNat_of_nonneg (by omega)]
    have hbound := card_coveredPoints_le rest hwr
    have hinter := Finset.card_union_add_card_inter (periodSet p) (coveredPoints rest)
    have hcovered : coveredPoints (p :: rest) = periodSet p ∪ coveredPoints rest := rfl
    have hd : durationSum (p :: rest) = (p.2.1 - p.1) + durationSum rest := by
      simp [durationSum]
    have hpd : PairwiseDisjointPeriods (p :: rest)
        ↔ (∀ q ∈ rest, Disjoint (periodSet p) (periodSet q))
          ∧ PairwiseDisjointPeriods rest := by
      unfold PairwiseDisjointPeriods
      exact List.pairwise_cons
    rw [hcovered, hd, hpd]
    constructor
    · intro heq
      have hle := Finset.card_union_le (periodSet p) (coveredPoints rest)
      have hU : (((coveredPoints rest).card : Nat) : Int) = durationSum rest := by omega
      have hinter0 : (periodSet p ∩ coveredPoints rest).card = 0 := by omega
      have hdisjAU : Disjoint (periodSet p) (coveredPoints rest) := by
        rw [Finset.disjoint_iff_inter_eq_empty]
        exact Finset.card_eq_zero.mp hinter0
      exact ⟨(disjoint_coveredPoints_iff _ _).mp hdisjAU, (ih hwr).mp hU⟩
    · rintro ⟨hdq, hpw⟩
      have hdisjAU := (disjoint_coveredPoints_iff (periodSet p) rest).mpr hdq
      have hcu := Finset.card_union_of_disjoint hdisjAU
      have hU := (ih hwr).mpr hpw
      omega

/-- calculate_unique_time_periods computes the size of the union of the
periods, for well-formed input. -/
lemma calculate_eq_card (l : List (Int × Int × Bool)) (hw : WellFormedPeriods l) :
    calculate_unique_time_periods l = (((coveredPoints l).card : Nat) : Int) := by
  unfold calculate_unique_time_periods
  by_cases he : l.isEmpty
  · obtain rfl := List.isEmpty_iff.mp he
    simp [coveredPoints]
  · rw [if_neg he]
    have hperm := sortByStart_perm l
    have hw2 : WellFormedPeriods (sortByStart l) := fun q hq => hw q (hperm.mem_iff.mp hq)
    rw [mergeLoop_none_card _ (sortByStart_pairwise l) hw2, coveredPoints_perm hperm]

/-- Truncating and floor division agree on nonnegative operands. -/
lemma tdiv_eq_fdiv_of_nonneg (a b : Int) (ha : 0 ≤ a) (hb : 0 ≤ b) :
    a.tdiv b = a.fdiv b :=
  (Int.tdiv_eq_ediv ha hb).trans (Int.fdiv_eq_ediv a hb).symm

/-- A process whose name the exclusion list contains never appears in the
output of find_all_gaming_processes, whatever the rest of the snapshot. -/
lemma find_all_not_mem_of_blacklisted (m : GameMonitor) (procs : List (String × String))
    (pn : String) (h : pn ∈ m.blacklisted_processes) :
    pn ∉ (find_all_gaming_processes m procs).map Prod.fst := by
  induction procs with
  | nil => simp [find_all_gaming_processes]
  | cons hd tl ih =>
    obtain ⟨q, path⟩ := hd
    by_cases hb : q ∈ m.blacklisted_processes
    · simpa [find_all_gaming_processes, hb] using ih
    · have hq : pn ≠ q := fun he => hb (he ▸ h)
      cases hl : lookupKnownGame m.known_games q with
      | some d => simpa [find_all_gaming_processes, hb, hl, hq] using ih
      | none =>
        by_cases hs : is_likely_steam_game path
        · simpa [find_all_gaming_processes, hb, hl, hs, hq] using ih
        · simpa [find_all_gaming_processes, hb, hl, hs] using ih

/-! ## Claim theorems -/

/-- C1: the claim says every session ending in a reconciliation pass gets
the ids of the other sessions active in that pass, computed from the state
before any removal, order-independently. Evaluating GameMonitor::update on
a tracker with exactly the two active sessions a and b and an empty
process snapshot shows otherwise: session b (removed first) records
session a's id, but session a (removed last) is flagged concurrent with an
empty concurrent-id set, missing b's id. -/
theorem update_concurrent_ids_order_dependent :
    ((m0.update [] 100 (fun n => toString n)).completed_sessions.map
      (fun s => (s.id, s.is_concurrent, s.concurrent_session_ids)))
      = [(some "b", true, ["a"]), (some "a", true, [])] := by
  rfl

/-- C3: update_usage composes the budget as allowance + rollover + earned,
and remaining is the used-minutes deficit clamped at zero, hence never
negative. -/
theorem update_usage_spec (b : BudgetStatus) (used : Int) :
    (b.update_usage used).total_available_minutes
      = b.daily_allowance_minutes + b.rollover_minutes + b.earned_minutes
  ∧ (b.update_usage used).remaining_today_minutes
      = max 0 ((b.update_usage used).total_available_minutes - used)
  ∧ 0 ≤ (b.update_usage used).remaining_today_minutes := by
  refine ⟨rfl, ?_, ?_⟩
  · simp [BudgetStatus.update_usage, max_comm]
  · exact le_max_right _ _

/-- C4 counterexample: the claim says the earned-minutes derivation uses
floor division; at duration -1 for type coding the code yields 0 (Rust
division truncates toward zero) while floor division yields -1. -/
theorem earned_minutes_floor_counterexample :
    (LearningActivity.new "coding" "x" (-1) "id" 0).earned_gaming_minutes = 0
  ∧ earnedFloorSpec "coding" (-1) = -1
  ∧ (LearningActivity.new "coding" "x" (-1) "id" 0).earned_gaming_minutes
      ≠ earnedFloorSpec "coding" (-1) := by
  refine ⟨rfl, rfl, by decide⟩

/-- C4 (amended): the earned-minutes derivation is the per-type table
coding 1/4, reading 1/6, course 1/4, exercise 1/3, default 1/5 with
truncating integer division (toward zero), which agrees with floor
division on nonnegative durations; the four quoted values hold. -/
theorem earned_minutes_spec (t desc id : String) (d now : Int) :
    (LearningActivity.new t desc d id now).earned_gaming_minutes = earnedTruncSpec t d
  ∧ (0 ≤ d → (LearningActivity.new t desc d id now).earned_gaming_minutes
      = earnedFloorSpec t d)
  ∧ (LearningActivity.new "coding" desc 60 id now).earned_gaming_minutes = 15
  ∧ (LearningActivity.new "reading" desc 60 id now).earned_gaming_minutes = 10
  ∧ (LearningActivity.new "exercise" desc 60 id now).earned_gaming_minutes = 20
  ∧ (LearningActivity.new "unknown" desc 100 id now).earned_gaming_minutes = 20 := by
  refine ⟨rfl, ?_, rfl, rfl, rfl, rfl⟩
  intro hd
  show earnedTruncSpec t d = earnedFloorSpec t d
  unfold earnedTruncSpec earnedFloorSpec
  split <;> exact tdiv_eq_fdiv_of_nonneg _ _ hd (by norm_num)

/-- C4 witness. -/
theorem earned_minutes_spec_witness :
    (0 : Int) ≤ 60
  ∧ (LearningActivity.new "coding" "w" 60 "id" 7).earned_gaming_minutes
      = earnedFloorSpec "coding" 60 := by
  exact ⟨by norm_num, (earned_minutes_spec "coding" "w" "id" 60 7).2.1 (by norm_num)⟩

/-- C5: rollover computation deletes exactly the entries whose expiry is
strictly before now, keeps the others, and returns the sum of unused
minutes over the entries whose expiry is at or after now. -/
theorem get_rollover_minutes_spec (table : List RolloverEntry) (now : Int) :
    (∀ r ∈ table, r.expires_at < now → r ∉ (get_rollover_minutes table now).1)
  ∧ (∀ r ∈ table, now ≤ r.expires_at → r ∈ (get_rollover_minutes table now).1)
  ∧ (get_rollover_minutes table now).2
      = ((table.filter (fun r => decide (now ≤ r.expires_at))).map
          (fun r => r.unused_minutes)).sum := by
  refine ⟨?_, ?_, ?_⟩
  · intro r _ hlt hmem
    rw [get_rollover_minutes, List.mem_filter] at hmem
    simp only [Bool.not_eq_eq_eq_not, Bool.not_true, decide_eq_false_iff_not, not_lt] at hmem
    omega
  · intro r hr hle
    rw [get_rollover_minutes, List.mem_filter]
    exact ⟨hr, by simpa using not_lt.mpr hle⟩
  · have heq : table.filter
        (fun r => decide (now ≤ r.expires_at) && !decide (r.expires_at < now))
        = table.filter (fun r => decide (now ≤ r.expires_at)) := by
      apply List.filter_congr
      intro r _
      by_cases h : r.expires_at < now
      · simp [h, not_le.mpr h]
      · simp [h, not_lt.mp h]
    simp only [get_rollover_minutes, List.filter_filter, heq]

/-- C5 witness. -/
theorem get_rollover_minutes_witness :
    ({ date := "d2", unused_minutes := 20, expires_at := 5 } : RolloverEntry)
      ∉ (get_rollover_minutes rolloverTable 50).1
  ∧ ({ date := "d1", unused_minutes := 30, expires_at := 100 } : RolloverEntry)
      ∈ (get_rollover_minutes rolloverTable 50).1
  ∧ (get_rollover_minutes rolloverTable 50).2 = 30 := by
  refine ⟨(get_rollover_minutes_spec rolloverTable 50).1 _ (by decide) (by decide),
    (get_rollover_minutes_spec rolloverTable 50).2.1 _ (by decide) (by decide), ?_⟩
  have h := (get_rollover_minutes_spec rolloverTable 50).2.2
  rw [h]
  decide

/-- C6: the exclusion-list check takes priority over the known-games table
and the Steam path heuristic: a blacklisted process name never appears in
the classifier output; in particular steam.exe sits in both default
tables and is never reported. -/
theorem blacklist_priority_spec (m : GameMonitor) (procs : List (String × String))
    (pn : String) (h : pn ∈ m.blacklisted_processes) :
    pn ∉ (find_all_gaming_processes m procs).map Prod.fst
  ∧ "steam.exe" ∈ GameMonitor.new.blacklisted_processes
  ∧ ("steam.exe", "Steam") ∈ GameMonitor.new.known_games
  ∧ ∀ procs2, "steam.exe" ∉ (find_all_gaming_processes GameMonitor.new procs2).map Prod.fst := by
  refine ⟨find_all_not_mem_of_blacklisted m procs pn h, by decide, by decide, ?_⟩
  intro procs2
  exact find_all_not_mem_of_blacklisted GameMonitor.new procs2 "steam.exe" (by decide)

/-- C6 witness. -/
theorem blacklist_priority_witness :
    "steam.exe" ∈ GameMonitor.new.blacklisted_processes
  ∧ "steam.exe" ∉ (find_all_gaming_processes GameMonitor.new
      [("steam.exe", "C:\\Steam\\steamapps\\steam.exe")]).map Prod.fst := by
  exact ⟨by decide,
    (blacklist_priority_spec GameMonitor.new
      [("steam.exe", "C:\\Steam\\steamapps\\steam.exe")] "steam.exe" (by decide)).1⟩

/-- C7: session creation leaves end time and duration both absent, ending
a session sets both, and in both cases the invariant holds that duration
is present iff the end timestamp is, with duration = end - start when
both exist. -/
theorem session_invariant_spec (gn pn id : String) (now : Int) (s : GameSession)
    (now2 : Int) :
    sessionInvariant (GameSession.new gn pn id now)
  ∧ (GameSession.new gn pn id now).end_time = none
  ∧ (GameSession.new gn pn id now).duration_seconds = none
  ∧ sessionInvariant (s.end_session now2)
  ∧ (s.end_session now2).end_time = some now2
  ∧ (s.end_session now2).duration_seconds = some (now2 - s.start_time) := by
  exact ⟨trivial, rfl, rfl, rfl, rfl, rfl⟩

/-- C8 counterexample: the claim says an unparseable stored value falls
back to its documented default, naming true for notifications-enabled;
but any stored value other than "true" (e.g. "yes") yields false. -/
theorem get_settings_notifications_counterexample :
    (get_settings []).notifications_enabled = true
  ∧ (get_settings [("notifications_enabled", "yes")]).notifications_enabled = false := by
  exact ⟨rfl, rfl⟩

/-- C8 (amended): the three numeric settings fall back to their defaults
120, 3 and 15 when absent or unparseable and take the parsed value
otherwise; notifications-enabled defaults to true when absent, but a
stored value is compared against "true", so any other value (parseable
or not) yields false rather than the default. -/
theorem get_settings_defaults_spec :
    get_settings [] = { daily_allowance_minutes := 120, rollover_days := 3,
                        notifications_enabled := true, warning_threshold_minutes := 15 }
  ∧ (∀ v, parse_i32 v = none →
        get_settings [("daily_allowance_minutes", v)]
          = { daily_allowance_minutes := 120, rollover_days := 3,
              notifications_enabled := true, warning_threshold_minutes := 15 }
      ∧ get_settings [("rollover_days", v)]
          = { daily_allowance_minutes := 120, rollover_days := 3,
              notifications_enabled := true, warning_threshold_minutes := 15 }
      ∧ get_settings [("warning_threshold_minutes", v)]
          = { daily_allowance_minutes := 120, rollover_days := 3,
              notifications_enabled := true, warning_threshold_minutes := 15 })
  ∧ (∀ v n, parse_i32 v = some n →
        (get_settings [("daily_allowance_minutes", v)]).daily_allowance_minutes = n
      ∧ (get_settings [("rollover_days", v)]).rollover_days = n
      ∧ (get_settings [("warning_threshold_minutes", v)]).warning_threshold_minutes = n)
  ∧ (∀ v, v ≠ "true" →
        (get_settings [("notifications_enabled", v)]).notifications_enabled = false) := by
  refine ⟨rfl, ?_, ?_, ?_⟩
  · intro v hv
    refine ⟨?_, ?_, ?_⟩ <;> simp [get_settings, applySetting, hv]
  · intro v n hv
    refine ⟨?_, ?_, ?_⟩ <;> simp [get_settings, applySetting, hv]
  · intro v hv
    simp [get_settings, applySetting, hv]

/-- C8 witness. -/
theorem get_settings_defaults_witness :
    get_settings [("daily_allowance_minutes", "oops")]
      = { daily_allowance_minutes := 120, rollover_days := 3,
          notifications_enabled := true, warning_threshold_minutes := 15 }
  ∧ (get_settings [("daily_allowance_minutes", "90")]).daily_allowance_minutes = 90
  ∧ (get_settings [("notifications_enabled", "yes")]).notifications_enabled = false := by
  exact ⟨(get_settings_defaults_spec.2.1 "oops" rfl).1,
    (get_settings_defaults_spec.2.2.1 "90" 90 rfl).1,
    get_settings_defaults_spec.2.2.2 "yes" (by decide)⟩

/-- C9: the total-available field is not clamped at zero: update_usage
always stores allowance + rollover + earned there, which is negative when
earned (possibly negative via the debug command) outweighs the rest,
while remaining is still clamped to zero. -/
theorem total_available_not_clamped (b : BudgetStatus) (used : Int) :
    (b.update_usage used).total_available_minutes
      = b.daily_allowance_minutes + b.rollover_minutes + b.earned_minutes
  ∧ (debugNegBudget.update_usage 0).total_available_minutes = -80
  ∧ (debugNegBudget.update_usage 0).total_available_minutes < 0
  ∧ (debugNegBudget.update_usage 0).remaining_today_minutes = 0
  ∧ (add_debug_earned_minutes (-200) "d" 0).earned_gaming_minutes = -200 := by
  exact ⟨rfl, by decide, by decide, by decide, rfl⟩

/-- C10: with no active session the total active time is exactly 0; with
active sessions it is now minus the minimum start time among them. -/
theorem get_total_active_time_spec (m : GameMonitor) (now : Int) :
    (m.active_sessions = [] → get_total_active_time m now = 0)
  ∧ ∀ mn, (m.active_sessions.map (fun s => s.start_time)).min? = some mn →
      get_total_active_time m now = now - mn := by
  constructor
  · intro h
    simp [get_total_active_time, h]
  · intro mn hmn
    have hne : m.active_sessions.isEmpty = false := by
      cases h : m.active_sessions with
      | nil => rw [h] at hmn; simp at hmn
      | cons a t => simp [h]
    unfold get_total_active_time
    rw [if_neg (by simp [hne]), hmn, Option.getD_some]

/-- C10 witness. -/
theorem get_total_active_time_witness :
    get_total_active_time { m0 with active_sessions := [] } 42 = 0
  ∧ get_total_active_time m0 42 = 42 - 0 := by
  exact ⟨(get_total_active_time_spec { m0 with active_sessions := [] } 42).1 rfl,
    (get_total_active_time_spec m0 42).2 0 rfl⟩

/-- C2: for well-formed closed-open periods, the merged total is at most
the sum of the individual durations, with equality exactly when the
periods are pairwise disjoint; a period nested inside a listed period
contributes nothing; and the result is independent of input order. -/
theorem calculate_unique_time_periods_spec (periods : List (Int × Int × Bool))
    (hw : WellFormedPeriods periods) :
    calculate_unique_time_periods periods ≤ durationSum periods
  ∧ (calculate_unique_time_periods periods = durationSum periods
      ↔ PairwiseDisjointPeriods periods)
  ∧ (∀ s e b q, q ∈ periods → s ≤ e → q.1 ≤ s → e ≤ q.2.1 →
      calculate_unique_time_periods ((s, e, b) :: periods)
        = calculate_unique_time_periods periods)
  ∧ ∀ periods2, periods.Perm periods2 →
      calculate_unique_time_periods periods = calculate_unique_time_periods periods2 := by
  refine ⟨?_, ?_, ?_, ?_⟩
  · rw [calculate_eq_card _ hw]
    exact card_coveredPoints_le _ hw
  · rw [calculate_eq_card _ hw]
    exact card_eq_sum_iff_disjoint _ hw
  · intro s e b q hq hse hq1 hq2
    have hw2 : WellFormedPeriods ((s, e, b) :: periods) := by
      intro r hr
      rcases List.mem_cons.mp hr with rfl | hr
      · exact hse
      · exact hw r hr
    have hsub : periodSet (s, e, b) ⊆ coveredPoints periods :=
      (Finset.Ico_subset_Ico hq1 hq2).trans (periodSet_subset_coveredPoints hq)
    have hunion : coveredPoints ((s, e, b) :: periods) = coveredPoints periods := by
      have : coveredPoints ((s, e, b) :: periods)
          = periodSet (s, e, b) ∪ coveredPoints periods := rfl
      rw [this, Finset.union_eq_right.mpr hsub]
    rw [calculate_eq_card _ hw2, calculate_eq_card _ hw, hunion]
  · intro periods2 hperm
    have hw2 : WellFormedPeriods periods2 := fun q hq => hw q (hperm.mem_iff.mpr hq)
    rw [calculate_eq_card _ hw, calculate_eq_card _ hw2, coveredPoints_perm hperm]

/-- C2 witness. -/
theorem calculate_unique_time_periods_witness :
    WellFormedPeriods demoPeriods
  ∧ (calculate_unique_time_periods demoPeriods ≤ durationSum demoPeriods
    ∧ (calculate_unique_time_periods demoPeriods = durationSum demoPeriods
        ↔ PairwiseDisjointPeriods demoPeriods)
    ∧ (∀ s e b q, q ∈ demoPeriods → s ≤ e → q.1 ≤ s → e ≤ q.2.1 →
        calculate_unique_time_periods ((s, e, b) :: demoPeriods)
          = calculate_unique_time_periods demoPeriods)
    ∧ ∀ periods2, demoPeriods.Perm periods2 →
        calculate_unique_time_periods demoPeriods
          = calculate_unique_time_periods periods2) :=
  ⟨by unfold WellFormedPeriods; decide,
    calculate_unique_time_periods_spec demoPeriods (by unfold WellFormedPeriods; decide)⟩
